import Mathlib

/- Verification of the chromite commit-queue core (buildbot/validation_pool.py and
buildbot/patch.py) against its natural-language specification. The Python code is
shallowly embedded: external collaborators (the gerrit server, the git working tree,
urllib) are oracles passed in as plain functions or data, and review-system side
effects are recorded as an event log. -/

namespace Chromite

/-- Equality of Except values is decidable when it is for both components; used to
evaluate the fallible functions of the model on concrete inputs. -/
instance {e a : Type} [DecidableEq e] [DecidableEq a] : DecidableEq (Except e a)
  | Except.ok x, Except.ok y => decidable_of_iff (x = y) (by simp)
  | Except.ok _, Except.error _ => isFalse (fun h => Except.noConfusion h)
  | Except.error _, Except.ok _ => isFalse (fun h => Except.noConfusion h)
  | Except.error x, Except.error y => decidable_of_iff (x = y) (by simp)

/-- Outcome of one call to change.Apply in validation_pool.py line 371: either it
succeeds, or it raises cros_patch.ApplyPatchException whose type field equals
TYPE_REBASE_TO_TOT, or it raises with any other type. The outcome is modelled as a
fixed attribute of the change, abstracting the git working tree. -/
inductive ApplyOutcome
  | success
  | failTot
  | failInflight
  deriving DecidableEq

/-- Which apply_error_message template was assigned to a change (lines 328, 346, 377). -/
inductive ErrReason
  | missingChangeId
  | depNotReady (dep : String)
  | inflightConflict
  deriving DecidableEq

/-- A GerritPatch as consumed by ValidationPool.ApplyPoolIntoRepo. The deps field
models the combined result of change.GerritDependencies and change.PaladinDependencies
at lines 324-326: none stands for cros_patch.MissingChangeIDException being raised,
some ds for the concatenated dependency alias list. applyOutcome abstracts
change.Apply as documented above. -/
structure Change where
  id : String
  project : String
  deps : Option (List String)
  applyOutcome : ApplyOutcome
  deriving DecidableEq

/-- External review-system side effects performed through gerrit commands: the submit
command of SubmitChange, a review comment posted by PaladinMessage.Send, and the
removal of the ready-for-commit marker by gerrit_helper.RemoveCommitReady. -/
inductive Event
  | submitCmd (c : Change)
  | comment (c : Change)
  | removeReady (c : Change)
  deriving DecidableEq

/-- The pool flags consulted by ApplyPoolIntoRepo: is_master and dryrun. The code
computes self.dryrun as dryrun | GLOBAL_DRYRUN with GLOBAL_DRYRUN = False, which is
the given dryrun again. -/
structure PoolCfg where
  is_master : Bool
  dryrun : Bool
  deriving DecidableEq

/-- Modelled from the spec: gerrit_helper.IsChangeCommitted with must_match=False
(gerrit_helper.py is not under src); an oracle answering whether a dependency alias is
already merged on the review server, as called at validation_pool.py line 341. -/
structure ApplyEnv where
  isCommitted : String → Bool

/-- Insertion into one of the Python sets of lines 303-305: membership is what
matters, insertion order is kept for determinism. -/
def addSet (c : Change) (l : List Change) : List Change :=
  if c ∈ l then l else l ++ [c]

/-- PaladinMessage.Send via _RunCommand: posts a review comment unless dryrun is set
(lines 27-32 and 573-578). -/
def sendNotification (dryrun : Bool) (c : Change) : List Event :=
  if dryrun then [] else [Event.comment c]

/-- Modelled from the spec: gerrit_helper.RemoveCommitReady (not under src) strips the
ready-for-commit marker; it receives dryrun=self.dryrun and performs nothing under
dryrun. -/
def removeCommitReady (dryrun : Bool) (c : Change) : List Event :=
  if dryrun then [] else [Event.removeReady c]

/-- ValidationPool.HandleCouldNotApply (lines 521-539): notification plus marker
removal. -/
def handleCouldNotApply (dryrun : Bool) (c : Change) : List Event :=
  sendNotification dryrun c ++ removeCommitReady dryrun c

/-- ValidationPool.HandleCouldNotSubmit (lines 489-503): notification plus marker
removal. -/
def handleCouldNotSubmit (dryrun : Bool) (c : Change) : List Event :=
  sendNotification dryrun c ++ removeCommitReady dryrun c

/-- ValidationPool.HandleApplied (lines 541-552): informational notification only. -/
def handleApplied (dryrun : Bool) (c : Change) : List Event :=
  sendNotification dryrun c

/-- State of one ApplyPoolIntoRepo call: the three outcome sets and changes_list of
lines 303-306, plus logs: attempts records every change.Apply invocation, errMsgs
every apply_error_message assignment, events every external review-system action. -/
structure ApplyState where
  tot : List Change
  inflight : List Change
  applied : List Change
  appliedList : List Change
  attempts : List Change
  errMsgs : List (Change × ErrReason)
  events : List Event
  deriving DecidableEq

def initState : ApplyState := ⟨[], [], [], [], [], [], []⟩

/-- Lookup in change_map (line 310): a dict built from change.id keys in pool order,
so for duplicate ids the later entry wins. -/
def lookupChange (pool : List Change) (a : String) : Option Change :=
  pool.reverse.find? (fun c => c.id == a)

/-- The dependency scan of lines 337-350: direct dependencies that resolve in the pool
are prepended in front of the change stack; a dependency that neither resolves nor is
committed stops the scan and is returned (apply_chain becomes False there); a
committed dependency is skipped. -/
def buildStackAux (pool : List Change) (env : ApplyEnv) (stack : List Change) :
    List String → List Change × Option String
  | [] => (stack, none)
  | d :: rest =>
    match lookupChange pool d with
    | some dc => buildStackAux pool env (dc :: stack) rest
    | none =>
      if env.isCommitted d then buildStackAux pool env stack rest
      else (stack, some d)

def buildStack (pool : List Change) (env : ApplyEnv) (c : Change) (ds : List String) :
    List Change × Option String :=
  buildStackAux pool env [c] ds

/-- The inner loop of lines 359-390: apply the change stack in order, skipping changes
already applied, breaking at a change already known to fail against tip, and breaking
at the first apply failure. The trivial flag of lines 365-370 only parameterizes
change.Apply, whose outcome the model reads from Change.applyOutcome. -/
def applyStack (cfg : PoolCfg) : ApplyState → List Change → ApplyState
  | S, [] => S
  | S, c :: rest =>
    if c ∈ S.applied then applyStack cfg S rest
    else if c ∈ S.tot then S
    else
      match c.applyOutcome with
      | ApplyOutcome.failTot =>
        { S with attempts := S.attempts ++ [c], tot := addSet c S.tot }
      | ApplyOutcome.failInflight =>
        { S with attempts := S.attempts ++ [c],
                 inflight := addSet c S.inflight,
                 errMsgs := S.errMsgs ++ [(c, ErrReason.inflightConflict)] }
      | ApplyOutcome.success =>
        applyStack cfg
          { S with attempts := S.attempts ++ [c],
                   applied := addSet c S.applied,
                   appliedList := S.appliedList ++ [c],
                   events := S.events ++
                     (if cfg.is_master then handleApplied cfg.dryrun c else []) }
          rest

/-- One iteration of the outer loop over self.changes (lines 311-390): skip changes
already settled, fail to tip on MissingChangeIDException, skip the change when a
dependency is neither in the pool nor committed, otherwise apply its stack. -/
def processChange (cfg : PoolCfg) (pool : List Change) (env : ApplyEnv)
    (S : ApplyState) (c : Change) : ApplyState :=
  if c ∈ S.tot ∨ c ∈ S.applied then S
  else
    match c.deps with
    | none =>
      { S with errMsgs := S.errMsgs ++ [(c, ErrReason.missingChangeId)],
               tot := addSet c S.tot }
    | some ds =>
      match buildStack pool env c ds with
      | (_, some d) =>
        { S with errMsgs := S.errMsgs ++ [(c, ErrReason.depNotReady d)] }
      | (stack, none) => applyStack cfg S stack

/-- ValidationPool.HandleApplicationFailure (lines 471-476): for each change a log
line and, on the master only, HandleCouldNotApply. -/
def handleApplicationFailure (cfg : PoolCfg) (l : List Change) : List Event :=
  l.foldl
    (fun acc c => acc ++ (if cfg.is_master then handleCouldNotApply cfg.dryrun c else []))
    []

/-- Result of ApplyPoolIntoRepo: the final state, the reassigned self.changes
(changes_list, line 401), the reassigned self.changes_that_failed_to_apply_earlier
(line 402), and the return value (line 404). -/
structure ApplyRun where
  state : ApplyState
  newChanges : List Change
  failedEarlier : List Change
  returnValue : Bool
  deriving DecidableEq

/-- State after the outer loop of ApplyPoolIntoRepo has run over the whole pool. -/
def foldState (cfg : PoolCfg) (env : ApplyEnv) (changes : List Change) : ApplyState :=
  changes.foldl (processChange cfg changes env) initState

/-- Events of the epilogue at lines 396-399: HandleApplicationFailure runs only when
the tip-failure set is nonempty. -/
def hafTail (cfg : PoolCfg) (S : ApplyState) : List Event :=
  if S.tot.isEmpty then [] else handleApplicationFailure cfg S.tot

/-- ValidationPool.ApplyPoolIntoRepo (lines 292-404): fold the outer loop over the
pool, invoke HandleApplicationFailure on the tip failures when nonempty, reassign the
pool lists and return whether any change applied. -/
def applyPoolIntoRepo (cfg : PoolCfg) (env : ApplyEnv) (changes : List Change) :
    ApplyRun :=
  let S := foldState cfg env changes
  let S2 := if S.tot.isEmpty then S
            else { S with events := S.events ++ handleApplicationFailure cfg S.tot }
  ⟨S2, S2.appliedList, S2.inflight, !S2.appliedList.isEmpty⟩

/-- Oracles for the submit pass. treeOpen abstracts the ValidationPool._IsTreeOpen
call at line 418 (the polling function itself is modelled below); submitRaises says
whether the gerrit review submit command raises RunCommandError for a change.
Modelled from the spec: isCommitted is gerrit_helper.IsChangeCommitted(change.id,
must_match), with gerrit_helper.py not under src; _SubmitChanges passes self.dryrun
as the second argument (line 425). -/
structure SubmitEnv where
  treeOpen : Bool
  submitRaises : Change → Bool
  isCommitted : String → Bool → Bool

inductive SubmitErr
  | assertionFailed
  | treeClosed
  | failedToSubmitAll (cs : List Change)
  deriving DecidableEq

/-- Whether was_change_submitted ends up True for a change (lines 420-432):
SubmitChange runs the submit command through _RunCommand, a no-op under dryrun, so it
can only raise outside dryrun; when it raises, the verification call is skipped and
the change counts as not submitted; otherwise the result is
IsChangeCommitted(change.id, self.dryrun). -/
def changeSubmitted (dryrun : Bool) (env : SubmitEnv) (c : Change) : Bool :=
  if !dryrun && env.submitRaises c then false else env.isCommitted c.id dryrun

/-- Events of one loop iteration of _SubmitChanges: the submit command itself
(suppressed by _RunCommand under dryrun) and, when the change did not verify as
submitted, the HandleCouldNotSubmit treatment. -/
def submitOneEvents (dryrun : Bool) (env : SubmitEnv) (c : Change) : List Event :=
  (if dryrun then [] else [Event.submitCmd c]) ++
    (if changeSubmitted dryrun env c then [] else handleCouldNotSubmit dryrun c)

/-- ValidationPool._SubmitChanges (lines 406-438): assert is_master, gate on dryrun or
the tree being open, loop over every change accumulating failures, and raise
FailedToSubmitAllChangesException naming the failed changes when any exist. -/
def submitChanges (dryrun is_master : Bool) (env : SubmitEnv) (changes : List Change) :
    List Event × Except SubmitErr Unit :=
  if !is_master then ([], Except.error SubmitErr.assertionFailed)
  else if dryrun || env.treeOpen then
    let evs := changes.foldl (fun acc c => acc ++ submitOneEvents dryrun env c) []
    let failed := changes.filter (fun c => !changeSubmitted dryrun env c)
    (evs,
     if failed.isEmpty then Except.ok ()
     else Except.error (SubmitErr.failedToSubmitAll failed))
  else ([], Except.error SubmitErr.treeClosed)

/-- One urlopen attempt inside _GetTreeStatus: either an IOError, or a response with
an HTTP code and, for the model, the general_state field of the parsed JSON body. -/
inductive FetchOutcome
  | ok (code : Nat) (state : String)
  | err
  deriving DecidableEq

/-- Result of one _GetTreeStatus call: the general_state obtained, the index of the
first unused urlopen attempt, and the backoff sleeps performed. -/
structure FetchRun where
  state : String
  next : Nat
  sleeps : List Nat
  deriving DecidableEq

/-- The retry loop of _GetTreeStatus (validation_pool.py lines 134-153): up to five
attempts; a response with code 200 returns its state at once; after any other outcome
the loop sleeps the current backoff and doubles it; when every attempt fails the
for-else returns a synthetic open status. env gives the outcome of the i-th urlopen
attempt of the whole _IsTreeOpen call. -/
def getTreeStatusAux (env : Nat → FetchOutcome) (i cur : Nat) : Nat → FetchRun
  | 0 => ⟨"open", i, []⟩
  | k + 1 =>
    match env i with
    | FetchOutcome.ok code s =>
      if code = 200 then ⟨s, i + 1, []⟩
      else
        let r := getTreeStatusAux env (i + 1) (cur * 2) k
        ⟨r.state, r.next, cur :: r.sleeps⟩
    | FetchOutcome.err =>
      let r := getTreeStatusAux env (i + 1) (cur * 2) k
      ⟨r.state, r.next, cur :: r.sleeps⟩

def getTreeStatus (env : Nat → FetchOutcome) (i : Nat) : FetchRun :=
  getTreeStatusAux env i 1 5

/-- The check of _CanSubmit (lines 155-157). -/
def canSubmitState (s : String) : Bool :=
  s == "open" || s == "throttled"

/-- The sleep interval of line 127, with Python 2 integer division. -/
def sleepTimeout (maxTimeout : Nat) : Nat :=
  min (max (maxTimeout / 5) 1) 30

/-- The polling loop of lines 166-172. elapsed is time.time() minus start_time,
advanced by the backoff sleeps inside each status fetch and by the sleep at line 170.
fuel bounds the recursion; every iteration advances elapsed by at least sleepTimeout,
which is at least one second, so fuel maxTimeout + 1 is never exhausted. The second
component counts the status polls performed so far. -/
def treeOpenLoop (env : Nat → FetchOutcome) (maxTimeout st : Nat) :
    Nat → Nat → Nat → Nat → Bool × Nat
  | 0, _, _, polls => (false, polls)
  | fuel + 1, i, elapsed, polls =>
    if elapsed < maxTimeout then
      let r := getTreeStatus env i
      if canSubmitState r.state then (true, polls + 1)
      else
        treeOpenLoop env maxTimeout st fuel r.next (elapsed + r.sleeps.sum + st)
          (polls + 1)
    else (false, polls)

/-- ValidationPool._IsTreeOpen (lines 112-172), returning the result together with the
number of status polls performed: the initial poll of line 162 and then the loop. -/
def isTreeOpenEx (env : Nat → FetchOutcome) (maxTimeout : Nat) : Bool × Nat :=
  let r0 := getTreeStatus env 0
  if canSubmitState r0.state then (true, 1)
  else
    treeOpenLoop env maxTimeout (sleepTimeout maxTimeout) (maxTimeout + 1) r0.next
      r0.sleeps.sum 1

def isTreeOpen (env : Nat → FetchOutcome) (maxTimeout : Nat) : Bool :=
  (isTreeOpenEx env maxTimeout).1

/-- One gerrit query result as consumed by GetGerritPatchInfo (patch.py lines
158-173): hasId says whether the parsed JSON record contains an id key, the remaining
fields are the ones GerritPatch.__init__ reads. The query oracle takes the server
selector (true for the internal server of the constants module) and the identifier
sent to it. -/
structure QueryResult where
  hasId : Bool
  project : String
  branch : String
  changeId : String
  ref : String
  revision : String
  deriving DecidableEq

/-- GerritPatch as built by GerritPatch.__init__ (patch.py lines 52-66). -/
structure GerritPatch where
  project : String
  tracking_branch : String
  internal : Bool
  id : String
  ref : String
  revision : String
  deriving DecidableEq

def mkGerritPatch (r : QueryResult) (internal : Bool) : GerritPatch :=
  ⟨r.project, r.branch, internal, r.changeId, r.ref, r.revision⟩

/-- The test patch.startswith of patch.py line 160: whether the identifier begins with
a star, written on the character list so that it evaluates in the kernel. -/
def isInternalId (p : String) : Bool :=
  match p.data with
  | [] => false
  | c :: _ => c == '*'

/-- The identifier actually queried: the leading star of an internal patch is stripped
first (patch.py lines 160-166). -/
def strippedId (p : String) : String :=
  if isInternalId p then String.mk (p.data.drop 1) else p

/-- GetGerritPatchInfo (patch.py lines 146-180): query each identifier in input order
against the internal or external server according to its star marker, build a
GerritPatch from each record that has an id key, and raise PatchException at the first
record without one. -/
def getGerritPatchInfo (query : Bool → String → QueryResult) :
    List String → Except String (List GerritPatch)
  | [] => Except.ok []
  | p :: rest =>
    let internal := isInternalId p
    let r := query internal (strippedId p)
    if r.hasId then
      match getGerritPatchInfo query rest with
      | Except.ok l => Except.ok (mkGerritPatch r internal :: l)
      | Except.error e => Except.error e
    else Except.error ("Change-ID " ++ strippedId p ++ " not found on server.")

/- Helper lemmas. -/

theorem mem_addSet {x c : Change} {l : List Change} :
    x ∈ addSet c l ↔ x = c ∨ x ∈ l := by
  unfold addSet
  by_cases h : c ∈ l
  · simp only [h, if_true]
    constructor
    · exact fun hx => Or.inr hx
    · rintro (rfl | hx)
      · exact h
      · exact hx
  · simp [h, List.mem_append, or_comm]

theorem foldl_inv {α β : Type} (P : β → Prop) (f : β → α → β) :
    ∀ (l : List α) (b : β), P b → (∀ b2 a, a ∈ l → P b2 → P (f b2 a)) →
      P (l.foldl f b) := by
  intro l
  induction l with
  | nil => intro b hb _; exact hb
  | cons a t ih =>
    intro b hb hstep
    exact ih (f b a) (hstep b a (List.mem_cons_self a t) hb)
      (fun b2 x hx => hstep b2 x (List.mem_cons_of_mem a hx))

theorem mem_foldl_append {α β : Type} (f : α → List β) :
    ∀ (l : List α) (acc : List β) (x : β),
      x ∈ l.foldl (fun a c => a ++ f c) acc ↔ x ∈ acc ∨ ∃ c ∈ l, x ∈ f c := by
  intro l
  induction l with
  | nil => simp
  | cons a t ih =>
    intro acc x
    rw [List.foldl_cons, ih]
    simp only [List.mem_append, List.mem_cons]
    constructor
    · rintro ((h | h) | ⟨c, hc, hx⟩)
      · exact Or.inl h
      · exact Or.inr ⟨a, Or.inl rfl, h⟩
      · exact Or.inr ⟨c, Or.inr hc, hx⟩
    · rintro (h | ⟨c, (rfl | hc), hx⟩)
      · exact Or.inl (Or.inl h)
      · exact Or.inl (Or.inr hx)
      · exact Or.inr ⟨c, hc, hx⟩

theorem lookupChange_mem {pool : List Change} {a : String} {c : Change}
    (h : lookupChange pool a = some c) : c ∈ pool := by
  have := List.mem_of_find?_eq_some h
  exact (List.mem_reverse).1 this

theorem lookupChange_id {pool : List Change} {a : String} {c : Change}
    (h : lookupChange pool a = some c) : c.id = a := by
  have := List.find?_some h
  exact eq_of_beq this

theorem buildStackAux_mem {pool : List Change} {env : ApplyEnv} :
    ∀ (ds : List String) (st : List Change) (x : Change),
      x ∈ (buildStackAux pool env st ds).1 →
      x ∈ st ∨ ∃ a ∈ ds, lookupChange pool a = some x := by
  intro ds
  induction ds with
  | nil => intro st x hx; exact Or.inl hx
  | cons d rest ih =>
    intro st x hx
    unfold buildStackAux at hx
    cases hfind : lookupChange pool d with
    | some dc =>
      rw [hfind] at hx
      rcases ih (dc :: st) x hx with h | ⟨a, ha, hl⟩
      · rcases List.mem_cons.1 h with rfl | h
        · exact Or.inr ⟨d, List.mem_cons_self d rest, hfind⟩
        · exact Or.inl h
      · exact Or.inr ⟨a, List.mem_cons_of_mem d ha, hl⟩
    | none =>
      rw [hfind] at hx
      by_cases hcm : env.isCommitted d
      · rw [if_pos hcm] at hx
        rcases ih st x hx with h | ⟨a, ha, hl⟩
        · exact Or.inl h
        · exact Or.inr ⟨a, List.mem_cons_of_mem d ha, hl⟩
      · rw [if_neg hcm] at hx
        exact Or.inl hx

theorem buildStackAux_fail {pool : List Change} {env : ApplyEnv} :
    ∀ (ds : List String) (st : List Change),
      (∃ d ∈ ds, lookupChange pool d = none ∧ env.isCommitted d = false) →
      ∃ d2, (buildStackAux pool env st ds).2 = some d2 := by
  intro ds
  induction ds with
  | nil => rintro st ⟨d, hd, _⟩; exact absurd hd (List.not_mem_nil d)
  | cons d rest ih =>
    rintro st ⟨d0, hd0, hno, hcm⟩
    unfold buildStackAux
    cases hfind : lookupChange pool d with
    | some dc =>
      rcases List.mem_cons.1 hd0 with rfl | hd0
      · rw [hfind] at hno; exact absurd hno (by simp)
      · exact ih (dc :: st) ⟨d0, hd0, hno, hcm⟩
    | none =>
      by_cases hc : env.isCommitted d
      · rw [if_pos hc]
        rcases List.mem_cons.1 hd0 with rfl | hd0
        · rw [hcm] at hc; exact absurd hc (by simp)
        · exact ih st ⟨d0, hd0, hno, hcm⟩
      · rw [if_neg hc]
        exact ⟨d, rfl⟩

/-- Invariant of the outer loop of ApplyPoolIntoRepo: members of changes_applied
applied successfully, members of the inflight set failed with a non-tip conflict, a
change is never in both changes_applied and the tip set, all three sets draw from the
input pool, changes_list carries exactly the members of changes_applied, review
comments during the loop come from HandleApplied on applied changes only, and no
marker removal or submit command happens during the loop. -/
structure Inv (pool : List Change) (S : ApplyState) : Prop where
  appliedOutcome : ∀ c ∈ S.applied, c.applyOutcome = ApplyOutcome.success
  inflightOutcome : ∀ c ∈ S.inflight, c.applyOutcome = ApplyOutcome.failInflight
  appliedNotTot : ∀ c ∈ S.applied, c ∉ S.tot
  appliedSub : ∀ c ∈ S.applied, c ∈ pool
  totSub : ∀ c ∈ S.tot, c ∈ pool
  inflightSub : ∀ c ∈ S.inflight, c ∈ pool
  appliedIffList : ∀ c, c ∈ S.applied ↔ c ∈ S.appliedList
  commentApplied : ∀ c, Event.comment c ∈ S.events → c ∈ S.applied
  noRemove : ∀ c, Event.removeReady c ∉ S.events
  noSubmit : ∀ c, Event.submitCmd c ∉ S.events

theorem initState_inv (pool : List Change) : Inv pool initState := by
  constructor <;> simp [initState]

theorem applyStack_inv {cfg : PoolCfg} {pool : List Change} :
    ∀ (stack : List Change) (S : ApplyState), Inv pool S →
      (∀ c ∈ stack, c ∈ pool) → Inv pool (applyStack cfg S stack) := by
  intro stack
  induction stack with
  | nil => intro S hS _; simpa [applyStack] using hS
  | cons c rest ih =>
    intro S hS hsub
    have hcpool : c ∈ pool := hsub c (List.mem_cons_self c rest)
    have hrest : ∀ x ∈ rest, x ∈ pool := fun x hx => hsub x (List.mem_cons_of_mem c hx)
    by_cases h1 : c ∈ S.applied
    · simpa [applyStack, h1] using ih S hS hrest
    · by_cases h2 : c ∈ S.tot
      · simpa [applyStack, h1, h2] using hS
      · cases hco : c.applyOutcome with
        | failTot =>
          simp only [applyStack, h1, h2, hco, if_neg, if_false]
          constructor
          · intro x hx; exact hS.appliedOutcome x hx
          · intro x hx; exact hS.inflightOutcome x hx
          · intro x hx hmem
            rcases mem_addSet.1 hmem with rfl | hmem2
            · exact h1 hx
            · exact hS.appliedNotTot x hx hmem2
          · intro x hx; exact hS.appliedSub x hx
          · intro x hx
            rcases mem_addSet.1 hx with rfl | hx2
            · exact hcpool
            · exact hS.totSub x hx2
          · intro x hx; exact hS.inflightSub x hx
          · intro x; exact hS.appliedIffList x
          · intro x hx; exact hS.commentApplied x hx
          · intro x; exact hS.noRemove x
          · intro x; exact hS.noSubmit x
        | failInflight =>
          simp only [applyStack, h1, h2, hco, if_neg, if_false]
          constructor
          · intro x hx; exact hS.appliedOutcome x hx
          · intro x hx
            rcases mem_addSet.1 hx with rfl | hx2
            · exact hco
            · exact hS.inflightOutcome x hx2
          · intro x hx; exact hS.appliedNotTot x hx
          · intro x hx; exact hS.appliedSub x hx
          · intro x hx; exact hS.totSub x hx
          · intro x hx
            rcases mem_addSet.1 hx with rfl | hx2
            · exact hcpool
            · exact hS.inflightSub x hx2
          · intro x; exact hS.appliedIffList x
          · intro x hx; exact hS.commentApplied x hx
          · intro x; exact hS.noRemove x
          · intro x; exact hS.noSubmit x
        | success =>
          simp only [applyStack, h1, h2, hco, if_neg, if_false]
          apply ih _ _ hrest
          constructor
          · intro x hx
            rcases mem_addSet.1 hx with rfl | hx2
            · exact hco
            · exact hS.appliedOutcome x hx2
          · intro x hx; exact hS.inflightOutcome x hx
          · intro x hx hmem
            rcases mem_addSet.1 hx with rfl | hx2
            · exact h2 hmem
            · exact hS.appliedNotTot x hx2 hmem
          · intro x hx
            rcases mem_addSet.1 hx with rfl | hx2
            · exact hcpool
            · exact hS.appliedSub x hx2
          · intro x hx; exact hS.totSub x hx
          · intro x hx; exact hS.inflightSub x hx
          · intro x
            rw [mem_addSet, List.mem_append, List.mem_singleton]
            rw [hS.appliedIffList x]
            exact or_comm
          · intro x hx
            rcases List.mem_append.1 hx with hx2 | hx2
            · exact mem_addSet.2 (Or.inr (hS.commentApplied x hx2))
            · rcases hmaster : cfg.is_master with _ | _
              · rw [hmaster] at hx2; simp at hx2
              · rw [hmaster] at hx2
                simp only [if_true, handleApplied, sendNotification] at hx2
                rcases hdry : cfg.dryrun with _ | _
                · rw [hdry] at hx2
                  simp only [Bool.false_eq_true, if_false, List.mem_singleton] at hx2
                  rw [Event.comment.injEq] at hx2
                  exact mem_addSet.2 (Or.inl hx2)
                · rw [hdry] at hx2; simp at hx2
          · intro x hx
            rcases List.mem_append.1 hx with hx2 | hx2
            · exact hS.noRemove x hx2
            · rcases hmaster : cfg.is_master with _ | _
              · rw [hmaster] at hx2; simp at hx2
              · rw [hmaster] at hx2
                simp [handleApplied, sendNotification] at hx2
          · intro x hx
            rcases List.mem_append.1 hx with hx2 | hx2
            · exact hS.noSubmit x hx2
            · rcases hmaster : cfg.is_master with _ | _
              · rw [hmaster] at hx2; simp at hx2
              · rw [hmaster] at hx2
                simp [handleApplied, sendNotification] at hx2

theorem mem_masterHandleApplied {cfg : PoolCfg} {c : Change} {e : Event}
    (h : e ∈ (if cfg.is_master then handleApplied cfg.dryrun c else [])) :
    e = Event.comment c := by
  rcases hm : cfg.is_master with _ | _ <;> rw [hm] at h
  · simp at h
  · simp only [if_true] at h
    unfold handleApplied sendNotification at h
    rcases hd : cfg.dryrun with _ | _ <;> rw [hd] at h
    · simpa using h
    · simp at h

/-- Where members of the state fields of applyStack come from: anything in the result
that was not there before is a member of the processed stack, and the only events
emitted are HandleApplied comments for stack members. -/
theorem applyStack_src {cfg : PoolCfg} :
    ∀ (stack : List Change) (S : ApplyState) (x : Change),
      (x ∈ (applyStack cfg S stack).attempts → x ∈ S.attempts ∨ x ∈ stack) ∧
      (x ∈ (applyStack cfg S stack).applied → x ∈ S.applied ∨ x ∈ stack) ∧
      (x ∈ (applyStack cfg S stack).tot → x ∈ S.tot ∨ x ∈ stack) ∧
      (x ∈ (applyStack cfg S stack).inflight → x ∈ S.inflight ∨ x ∈ stack) ∧
      (Event.comment x ∈ (applyStack cfg S stack).events →
        Event.comment x ∈ S.events ∨ x ∈ stack) ∧
      (Event.removeReady x ∈ (applyStack cfg S stack).events →
        Event.removeReady x ∈ S.events) ∧
      (Event.submitCmd x ∈ (applyStack cfg S stack).events →
        Event.submitCmd x ∈ S.events) := by
  intro stack
  induction stack with
  | nil =>
    intro S x
    simp [applyStack]
  | cons c rest ih =>
    intro S x
    by_cases h1 : c ∈ S.applied
    · simp only [applyStack, h1, if_true]
      obtain ⟨i1, i2, i3, i4, i5, i6, i7⟩ := ih S x
      refine ⟨?_, ?_, ?_, ?_, ?_, i6, i7⟩
      · intro h; rcases i1 h with h | h
        · exact Or.inl h
        · exact Or.inr (List.mem_cons_of_mem c h)
      · intro h; rcases i2 h with h | h
        · exact Or.inl h
        · exact Or.inr (List.mem_cons_of_mem c h)
      · intro h; rcases i3 h with h | h
        · exact Or.inl h
        · exact Or.inr (List.mem_cons_of_mem c h)
      · intro h; rcases i4 h with h | h
        · exact Or.inl h
        · exact Or.inr (List.mem_cons_of_mem c h)
      · intro h; rcases i5 h with h | h
        · exact Or.inl h
        · exact Or.inr (List.mem_cons_of_mem c h)
    · by_cases h2 : c ∈ S.tot
      · simp only [applyStack, h1, h2, if_true, if_false]
        exact ⟨fun h => Or.inl h, fun h => Or.inl h, fun h => Or.inl h, fun h => Or.inl h,
          fun h => Or.inl h, fun h => h, fun h => h⟩
      · cases hco : c.applyOutcome with
        | failTot =>
          simp only [applyStack, h1, h2, hco, if_neg, if_false]
          refine ⟨?_, ?_, ?_, ?_, ?_, ?_, ?_⟩ <;> intro h
          · rcases List.mem_append.1 h with h | h
            · exact Or.inl h
            · exact Or.inr (by simpa using Or.inl (List.mem_singleton.1 h))
          · exact Or.inl h
          · rcases mem_addSet.1 h with rfl | h
            · exact Or.inr (List.mem_cons_self x rest)
            · exact Or.inl h
          · exact Or.inl h
          · exact Or.inl h
          · exact h
          · exact h
        | failInflight =>
          simp only [applyStack, h1, h2, hco, if_neg, if_false]
          refine ⟨?_, ?_, ?_, ?_, ?_, ?_, ?_⟩ <;> intro h
          · rcases List.mem_append.1 h with h | h
            · exact Or.inl h
            · exact Or.inr (by simpa using Or.inl (List.mem_singleton.1 h))
          · exact Or.inl h
          · exact Or.inl h
          · rcases mem_addSet.1 h with rfl | h
            · exact Or.inr (List.mem_cons_self x rest)
            · exact Or.inl h
          · exact Or.inl h
          · exact h
          · exact h
        | success =>
          simp only [applyStack, h1, h2, hco, if_neg, if_false]
          obtain ⟨i1, i2, i3, i4, i5, i6, i7⟩ := ih _ x
          refine ⟨?_, ?_, ?_, ?_, ?_, ?_, ?_⟩ <;> intro h
          · rcases i1 h with h | h
            · rcases List.mem_append.1 h with h | h
              · exact Or.inl h
              · exact Or.inr (by simpa using Or.inl (List.mem_singleton.1 h))
            · exact Or.inr (List.mem_cons_of_mem c h)
          · rcases i2 h with h | h
            · rcases mem_addSet.1 h with rfl | h
              · exact Or.inr (List.mem_cons_self x rest)
              · exact Or.inl h
            · exact Or.inr (List.mem_cons_of_mem c h)
          · rcases i3 h with h | h
            · exact Or.inl h
            · exact Or.inr (List.mem_cons_of_mem c h)
          · rcases i4 h with h | h
            · exact Or.inl h
            · exact Or.inr (List.mem_cons_of_mem c h)
          · rcases i5 h with h | h
            · rcases List.mem_append.1 h with h | h
              · exact Or.inl h
              · have := mem_masterHandleApplied h
                rw [Event.comment.injEq] at this
                exact Or.inr (by rw [this]; exact List.mem_cons_self c rest)
            · exact Or.inr (List.mem_cons_of_mem c h)
          · rcases List.mem_append.1 (i6 h) with h | h
            · exact h
            · have := mem_masterHandleApplied h
              exact absurd this (by simp)
          · rcases List.mem_append.1 (i7 h) with h | h
            · exact h
            · have := mem_masterHandleApplied h
              exact absurd this (by simp)

theorem stack_sub_pool {pool : List Change} {env : ApplyEnv} {c : Change}
    {ds : List String} {stack : List Change}
    (hc : c ∈ pool) (hbs : buildStack pool env c ds = (stack, none)) :
    ∀ x ∈ stack, x ∈ pool := by
  intro x hx
  unfold buildStack at hbs
  have hx2 : x ∈ (buildStackAux pool env [c] ds).1 := by
    rw [hbs]
    exact hx
  rcases buildStackAux_mem ds [c] x hx2 with h | ⟨a, _, hl⟩
  · rcases List.mem_singleton.1 h with rfl
    exact hc
  · exact lookupChange_mem hl

theorem processChange_inv {cfg : PoolCfg} {pool : List Change} {env : ApplyEnv}
    {S : ApplyState} {c : Change} (hc : c ∈ pool) (hS : Inv pool S) :
    Inv pool (processChange cfg pool env S c) := by
  unfold processChange
  by_cases hg : c ∈ S.tot ∨ c ∈ S.applied
  · simpa [hg] using hS
  · simp only [hg, if_false]
    have hcna : c ∉ S.applied := fun h => hg (Or.inr h)
    cases hdeps : c.deps with
    | none =>
      constructor
      · intro x hx; exact hS.appliedOutcome x hx
      · intro x hx; exact hS.inflightOutcome x hx
      · intro x hx hmem
        rcases mem_addSet.1 hmem with rfl | hmem2
        · exact hcna hx
        · exact hS.appliedNotTot x hx hmem2
      · intro x hx; exact hS.appliedSub x hx
      · intro x hx
        rcases mem_addSet.1 hx with rfl | hx2
        · exact hc
        · exact hS.totSub x hx2
      · intro x hx; exact hS.inflightSub x hx
      · intro x; exact hS.appliedIffList x
      · intro x hx; exact hS.commentApplied x hx
      · intro x; exact hS.noRemove x
      · intro x; exact hS.noSubmit x
    | some ds =>
      dsimp only
      rcases hbs : buildStack pool env c ds with ⟨stack, od⟩
      cases od with
      | some d =>
        exact ⟨hS.appliedOutcome, hS.inflightOutcome, hS.appliedNotTot, hS.appliedSub,
          hS.totSub, hS.inflightSub, hS.appliedIffList, hS.commentApplied,
          hS.noRemove, hS.noSubmit⟩
      | none =>
        exact applyStack_inv stack S hS (stack_sub_pool hc hbs)

theorem foldState_inv (cfg : PoolCfg) (env : ApplyEnv) (changes : List Change) :
    Inv changes (foldState cfg env changes) := by
  unfold foldState
  exact foldl_inv (Inv changes) _ changes initState (initState_inv changes)
    (fun S c hc hS => processChange_inv hc hS)

/-- The result of ApplyPoolIntoRepo in terms of the state after the outer loop. -/
theorem applyPool_eq (cfg : PoolCfg) (env : ApplyEnv) (changes : List Change) :
    applyPoolIntoRepo cfg env changes =
      ⟨{ foldState cfg env changes with
           events := (foldState cfg env changes).events ++
             hafTail cfg (foldState cfg env changes) },
       (foldState cfg env changes).appliedList,
       (foldState cfg env changes).inflight,
       !(foldState cfg env changes).appliedList.isEmpty⟩ := by
  unfold applyPoolIntoRepo hafTail
  by_cases h : (foldState cfg env changes).tot.isEmpty <;> simp [h]

theorem mem_hafTail {cfg : PoolCfg} {S : ApplyState} {x : Event} :
    x ∈ hafTail cfg S ↔
      ∃ c ∈ S.tot, x ∈ (if cfg.is_master then handleCouldNotApply cfg.dryrun c else []) := by
  unfold hafTail
  by_cases h : S.tot.isEmpty
  · rw [List.isEmpty_iff] at h
    simp [h]
  · simp only [h, if_false]
    unfold handleApplicationFailure
    exact Iff.trans (mem_foldl_append _ S.tot [] x) (by simp)

theorem handleCouldNotApply_nodry {c : Change} :
    handleCouldNotApply false c = [Event.comment c, Event.removeReady c] := by
  simp [handleCouldNotApply, sendNotification, removeCommitReady]

theorem mem_masterCouldNotApply {cfg : PoolCfg} {c : Change} {e : Event}
    (h : e ∈ (if cfg.is_master then handleCouldNotApply cfg.dryrun c else [])) :
    e = Event.comment c ∨ e = Event.removeReady c := by
  rcases hm : cfg.is_master with _ | _ <;> rw [hm] at h
  · simp at h
  · simp only [if_true] at h
    unfold handleCouldNotApply sendNotification removeCommitReady at h
    rcases hd : cfg.dryrun with _ | _ <;> rw [hd] at h
    · rcases List.mem_append.1 h with h | h
      · exact Or.inl (List.mem_singleton.1 h)
      · exact Or.inr (List.mem_singleton.1 h)
    · simp at h

theorem applyPool_tot (cfg : PoolCfg) (env : ApplyEnv) (changes : List Change) :
    (applyPoolIntoRepo cfg env changes).state.tot = (foldState cfg env changes).tot := by
  rw [applyPool_eq]

theorem applyPool_inflight (cfg : PoolCfg) (env : ApplyEnv) (changes : List Change) :
    (applyPoolIntoRepo cfg env changes).state.inflight =
      (foldState cfg env changes).inflight := by
  rw [applyPool_eq]

theorem applyPool_applied (cfg : PoolCfg) (env : ApplyEnv) (changes : List Change) :
    (applyPoolIntoRepo cfg env changes).state.applied =
      (foldState cfg env changes).applied := by
  rw [applyPool_eq]

theorem applyPool_appliedList (cfg : PoolCfg) (env : ApplyEnv) (changes : List Change) :
    (applyPoolIntoRepo cfg env changes).state.appliedList =
      (foldState cfg env changes).appliedList := by
  rw [applyPool_eq]

theorem applyPool_attempts (cfg : PoolCfg) (env : ApplyEnv) (changes : List Change) :
    (applyPoolIntoRepo cfg env changes).state.attempts =
      (foldState cfg env changes).attempts := by
  rw [applyPool_eq]

theorem applyPool_events (cfg : PoolCfg) (env : ApplyEnv) (changes : List Change) :
    (applyPoolIntoRepo cfg env changes).state.events =
      (foldState cfg env changes).events ++ hafTail cfg (foldState cfg env changes) := by
  rw [applyPool_eq]

theorem applyPool_newChanges (cfg : PoolCfg) (env : ApplyEnv) (changes : List Change) :
    (applyPoolIntoRepo cfg env changes).newChanges =
      (foldState cfg env changes).appliedList := by
  rw [applyPool_eq]

theorem applyPool_failedEarlier (cfg : PoolCfg) (env : ApplyEnv) (changes : List Change) :
    (applyPoolIntoRepo cfg env changes).failedEarlier =
      (foldState cfg env changes).inflight := by
  rw [applyPool_eq]

theorem applyPool_return (cfg : PoolCfg) (env : ApplyEnv) (changes : List Change) :
    (applyPoolIntoRepo cfg env changes).returnValue =
      !(foldState cfg env changes).appliedList.isEmpty := by
  rw [applyPool_eq]

/-- A change different from p whose dependency aliases do not resolve to p leaves
every p membership of the state untouched. -/
theorem processChange_pfree {cfg : PoolCfg} {pool : List Change} {env : ApplyEnv}
    {S : ApplyState} {c p : Change} (hne : c ≠ p)
    (hdep : ∀ a ∈ c.deps.getD [], lookupChange pool a ≠ some p)
    (h1 : p ∉ S.attempts) (h2 : p ∉ S.applied) (h3 : p ∉ S.tot) (h4 : p ∉ S.inflight) :
    p ∉ (processChange cfg pool env S c).attempts ∧
    p ∉ (processChange cfg pool env S c).applied ∧
    p ∉ (processChange cfg pool env S c).tot ∧
    p ∉ (processChange cfg pool env S c).inflight := by
  unfold processChange
  by_cases hg : c ∈ S.tot ∨ c ∈ S.applied
  · simp only [hg, if_true]
    exact ⟨h1, h2, h3, h4⟩
  · simp only [hg, if_false]
    cases hdeps : c.deps with
    | none =>
      refine ⟨h1, h2, ?_, h4⟩
      intro hmem
      rcases mem_addSet.1 hmem with hpc | hmem2
      · exact hne hpc.symm
      · exact h3 hmem2
    | some ds =>
      dsimp only
      rcases hbs : buildStack pool env c ds with ⟨stack, od⟩
      cases od with
      | some d => exact ⟨h1, h2, h3, h4⟩
      | none =>
        have hps : p ∉ stack := by
          intro hp
          have hp2 : p ∈ (buildStackAux pool env [c] ds).1 := by
            unfold buildStack at hbs
            rw [hbs]
            exact hp
          rcases buildStackAux_mem ds [c] p hp2 with h | ⟨a, ha, hl⟩
          · exact hne (List.mem_singleton.1 h).symm
          · refine hdep a ?_ hl
            rw [hdeps]
            exact ha
        obtain ⟨i1, i2, i3, i4, _, _, _⟩ := applyStack_src stack S p
        refine ⟨?_, ?_, ?_, ?_⟩ <;> intro hmem
        · rcases i1 hmem with h | h
          · exact h1 h
          · exact hps h
        · rcases i2 hmem with h | h
          · exact h2 h
          · exact hps h
        · rcases i3 hmem with h | h
          · exact h3 h
          · exact hps h
        · rcases i4 hmem with h | h
          · exact h4 h
          · exact hps h

/-- Processing a change one of whose dependencies neither resolves in the pool nor is
committed only records an error message: the change stack is never applied. -/
theorem processChange_selfFailDep {cfg : PoolCfg} {pool : List Change} {env : ApplyEnv}
    {S : ApplyState} {p : Change} {ds : List String} {d : String}
    (hdeps : p.deps = some ds) (hd : d ∈ ds) (hno : lookupChange pool d = none)
    (hcm : env.isCommitted d = false)
    (h1 : p ∉ S.attempts) (h2 : p ∉ S.applied) (h3 : p ∉ S.tot) (h4 : p ∉ S.inflight) :
    p ∉ (processChange cfg pool env S p).attempts ∧
    p ∉ (processChange cfg pool env S p).applied ∧
    p ∉ (processChange cfg pool env S p).tot ∧
    p ∉ (processChange cfg pool env S p).inflight := by
  unfold processChange
  by_cases hg : p ∈ S.tot ∨ p ∈ S.applied
  · simp only [hg, if_true]
    exact ⟨h1, h2, h3, h4⟩
  · simp only [hg, if_false]
    rw [hdeps]
    dsimp only
    rcases hbs : buildStack pool env p ds with ⟨stack, od⟩
    cases od with
    | some d2 => exact ⟨h1, h2, h3, h4⟩
    | none =>
      obtain ⟨d2, hod⟩ := buildStackAux_fail ds [p] ⟨d, hd, hno, hcm⟩
      unfold buildStack at hbs
      rw [hbs] at hod
      exact absurd hod (by simp)

/-- When every urlopen attempt succeeds with code 200, a status fetch consumes exactly
one attempt and sleeps never. -/
theorem getTreeStatus_ok {env : Nat → FetchOutcome} {states : Nat → String}
    (hall : ∀ k, env k = FetchOutcome.ok 200 (states k)) (i : Nat) :
    getTreeStatus env i = ⟨states i, i + 1, []⟩ := by
  unfold getTreeStatus getTreeStatusAux
  rw [hall i]
  simp

theorem sleepTimeout_pos (maxTimeout : Nat) : 1 ≤ sleepTimeout maxTimeout := by
  unfold sleepTimeout
  exact le_min (le_max_right _ _) (by norm_num)

theorem treeOpenLoop_closed {env : Nat → FetchOutcome} {states : Nat → String}
    (maxTimeout st : Nat) (hall : ∀ k, env k = FetchOutcome.ok 200 (states k))
    (hcl : ∀ k, canSubmitState (states k) = false) :
    ∀ (fuel i elapsed polls : Nat),
      (treeOpenLoop env maxTimeout st fuel i elapsed polls).1 = false := by
  intro fuel
  induction fuel with
  | zero => intro i e p; rfl
  | succ f ih =>
    intro i e p
    unfold treeOpenLoop
    by_cases h : e < maxTimeout
    · simp only [h, if_true, getTreeStatus_ok hall, hcl, Bool.false_eq_true, if_false]
      exact ih _ _ _
    · simp [h]

theorem treeOpenLoop_open {env : Nat → FetchOutcome} {states : Nat → String}
    (maxTimeout st : Nat) (hall : ∀ k, env k = FetchOutcome.ok 200 (states k)) :
    ∀ (m fuel i elapsed polls : Nat),
      (∀ k < m, canSubmitState (states (i + k)) = false) →
      canSubmitState (states (i + m)) = true →
      elapsed + m * st < maxTimeout → m < fuel →
      treeOpenLoop env maxTimeout st fuel i elapsed polls = (true, polls + m + 1) := by
  intro m
  induction m with
  | zero =>
    intro fuel i e p hcl hop hcond hfuel
    cases fuel with
    | zero => omega
    | succ f =>
      have he : e < maxTimeout := by
        rw [Nat.zero_mul] at hcond
        omega
      unfold treeOpenLoop
      rw [Nat.add_zero] at hop
      simp [he, getTreeStatus_ok hall, hop]
  | succ m2 ih =>
    intro fuel i e p hcl hop hcond hfuel
    cases fuel with
    | zero => omega
    | succ f =>
      have hmul : (m2 + 1) * st = m2 * st + st := Nat.succ_mul m2 st
      have he : e < maxTimeout := by
        rw [hmul] at hcond
        omega
      have hcl0 : canSubmitState (states i) = false := by
        have := hcl 0 (Nat.succ_pos m2)
        rwa [Nat.add_zero] at this
      unfold treeOpenLoop
      simp only [he, if_true, getTreeStatus_ok hall, hcl0, Bool.false_eq_true, if_false,
        List.sum_nil, Nat.add_zero]
      have hres := ih f (i + 1) (e + st) (p + 1)
        (by
          intro k hk
          have := hcl (k + 1) (by omega)
          rwa [show i + (k + 1) = i + 1 + k by omega] at this)
        (by rwa [show i + 1 + m2 = i + (m2 + 1) by omega])
        (by rw [hmul] at hcond; omega)
        (by omega)
      rw [hres]
      congr 1
      omega

/-- The success path of GetGerritPatchInfo: when every query record has an id key, the
result is one GerritPatch per input identifier in order. -/
theorem getGerritPatchInfo_ok {query : Bool → String → QueryResult} :
    ∀ ps : List String,
      (∀ p ∈ ps, (query (isInternalId p) (strippedId p)).hasId = true) →
      getGerritPatchInfo query ps =
        Except.ok (ps.map
          (fun p => mkGerritPatch (query (isInternalId p) (strippedId p))
            (isInternalId p))) := by
  intro ps
  induction ps with
  | nil => intro _; rfl
  | cons p rest ih =>
    intro hall
    unfold getGerritPatchInfo
    dsimp only
    rw [hall p (List.mem_cons_self p rest)]
    rw [ih (fun q hq => hall q (List.mem_cons_of_mem p hq))]
    simp

/-- The failure path of GetGerritPatchInfo: the first record without an id key raises
PatchException at once. -/
theorem getGerritPatchInfo_err {query : Bool → String → QueryResult} :
    ∀ (xs : List String) (y : String) (ys : List String),
      (∀ p ∈ xs, (query (isInternalId p) (strippedId p)).hasId = true) →
      (query (isInternalId y) (strippedId y)).hasId = false →
      getGerritPatchInfo query (xs ++ y :: ys) =
        Except.error ("Change-ID " ++ strippedId y ++ " not found on server.") := by
  intro xs
  induction xs with
  | nil =>
    intro y ys _ hbad
    unfold getGerritPatchInfo
    simp [hbad]
  | cons x xs2 ih =>
    intro y ys hok hbad
    rw [List.cons_append]
    unfold getGerritPatchInfo
    dsimp only
    rw [hok x (List.mem_cons_self x xs2)]
    rw [ih y ys (fun q hq => hok q (List.mem_cons_of_mem x hq)) hbad]
    simp

/- Claim theorems. -/

/-- C1, counterexample: the outcome sets of ApplyPoolIntoRepo are neither pairwise
disjoint nor a cover of the input pool. In the pool [p, c, a] where p depends on c,
c fails with an inflight conflict while its own dependency computation raises
MissingChangeIDException, and a has an unsatisfiable dependency x9, the change c ends
in both failure sets and the change a ends in no set at all. -/
theorem claim_C1_counterexample :
    ((⟨"c", "x", none, ApplyOutcome.failInflight⟩ : Change) ∈
        (applyPoolIntoRepo ⟨true, false⟩ ⟨fun _ => false⟩
          [⟨"p", "x", some ["c"], ApplyOutcome.success⟩,
           ⟨"c", "x", none, ApplyOutcome.failInflight⟩,
           ⟨"a", "x", some ["x9"], ApplyOutcome.success⟩]).state.tot ∧
      (⟨"c", "x", none, ApplyOutcome.failInflight⟩ : Change) ∈
        (applyPoolIntoRepo ⟨true, false⟩ ⟨fun _ => false⟩
          [⟨"p", "x", some ["c"], ApplyOutcome.success⟩,
           ⟨"c", "x", none, ApplyOutcome.failInflight⟩,
           ⟨"a", "x", some ["x9"], ApplyOutcome.success⟩]).state.inflight) ∧
    ((⟨"a", "x", some ["x9"], ApplyOutcome.success⟩ : Change) ∉
        (applyPoolIntoRepo ⟨true, false⟩ ⟨fun _ => false⟩
          [⟨"p", "x", some ["c"], ApplyOutcome.success⟩,
           ⟨"c", "x", none, ApplyOutcome.failInflight⟩,
           ⟨"a", "x", some ["x9"], ApplyOutcome.success⟩]).state.applied ∧
      (⟨"a", "x", some ["x9"], ApplyOutcome.success⟩ : Change) ∉
        (applyPoolIntoRepo ⟨true, false⟩ ⟨fun _ => false⟩
          [⟨"p", "x", some ["c"], ApplyOutcome.success⟩,
           ⟨"c", "x", none, ApplyOutcome.failInflight⟩,
           ⟨"a", "x", some ["x9"], ApplyOutcome.success⟩]).state.tot ∧
      (⟨"a", "x", some ["x9"], ApplyOutcome.success⟩ : Change) ∉
        (applyPoolIntoRepo ⟨true, false⟩ ⟨fun _ => false⟩
          [⟨"p", "x", some ["c"], ApplyOutcome.success⟩,
           ⟨"c", "x", none, ApplyOutcome.failInflight⟩,
           ⟨"a", "x", some ["x9"], ApplyOutcome.success⟩]).state.inflight) := by
  decide

/-- C1, amended: the applied set of an ApplyPoolIntoRepo call is disjoint from each of
the two failure sets and all three sets draw from the input pool; the two failure sets
may overlap and an input patch may end in no set. The Nodup hypothesis pins Python
object identity to value identity for the set memberships. -/
theorem claim_C1_amended (cfg : PoolCfg) (env : ApplyEnv) (changes : List Change)
    (_hids : (changes.map Change.id).Nodup) :
    (∀ c ∈ (applyPoolIntoRepo cfg env changes).state.applied,
        c ∉ (applyPoolIntoRepo cfg env changes).state.tot) ∧
    (∀ c ∈ (applyPoolIntoRepo cfg env changes).state.applied,
        c ∉ (applyPoolIntoRepo cfg env changes).state.inflight) ∧
    (∀ c ∈ (applyPoolIntoRepo cfg env changes).state.applied, c ∈ changes) ∧
    (∀ c ∈ (applyPoolIntoRepo cfg env changes).state.tot, c ∈ changes) ∧
    (∀ c ∈ (applyPoolIntoRepo cfg env changes).state.inflight, c ∈ changes) := by
  have hI := foldState_inv cfg env changes
  rw [applyPool_tot, applyPool_inflight, applyPool_applied]
  refine ⟨hI.appliedNotTot, ?_, hI.appliedSub, hI.totSub, hI.inflightSub⟩
  intro c hc hmem
  have h1 := hI.appliedOutcome c hc
  have h2 := hI.inflightOutcome c hmem
  rw [h1] at h2
  exact ApplyOutcome.noConfusion h2

/-- C1, witness for the amended claim at a one-change pool. -/
theorem claim_C1_amended_witness :
    (⟨"a", "x", some [], ApplyOutcome.success⟩ : Change) ∉
      (applyPoolIntoRepo ⟨true, false⟩ ⟨fun _ => false⟩
        [⟨"a", "x", some [], ApplyOutcome.success⟩]).state.tot :=
  (claim_C1_amended ⟨true, false⟩ ⟨fun _ => false⟩
      [⟨"a", "x", some [], ApplyOutcome.success⟩] (by decide)).1
    ⟨"a", "x", some [], ApplyOutcome.success⟩ (by decide)

/-- C2, counterexample: in the pool [d, m, p] where m depends on d and p depends on m,
d fails against the tip, yet m - a change whose dependency failed - is still passed to
the apply primitive (through the chain of p) and is classified applied rather than
with the same tag as d. -/
theorem claim_C2_counterexample :
    (⟨"m", "x", some ["d"], ApplyOutcome.success⟩ : Change).deps = some ["d"] ∧
    lookupChange
        [⟨"d", "x", some [], ApplyOutcome.failTot⟩,
         ⟨"m", "x", some ["d"], ApplyOutcome.success⟩,
         ⟨"p", "x", some ["m"], ApplyOutcome.success⟩] "d" =
      some ⟨"d", "x", some [], ApplyOutcome.failTot⟩ ∧
    (⟨"d", "x", some [], ApplyOutcome.failTot⟩ : Change) ∈
      (applyPoolIntoRepo ⟨true, false⟩ ⟨fun _ => false⟩
        [⟨"d", "x", some [], ApplyOutcome.failTot⟩,
         ⟨"m", "x", some ["d"], ApplyOutcome.success⟩,
         ⟨"p", "x", some ["m"], ApplyOutcome.success⟩]).state.tot ∧
    (⟨"m", "x", some ["d"], ApplyOutcome.success⟩ : Change) ∈
      (applyPoolIntoRepo ⟨true, false⟩ ⟨fun _ => false⟩
        [⟨"d", "x", some [], ApplyOutcome.failTot⟩,
         ⟨"m", "x", some ["d"], ApplyOutcome.success⟩,
         ⟨"p", "x", some ["m"], ApplyOutcome.success⟩]).state.attempts ∧
    (⟨"m", "x", some ["d"], ApplyOutcome.success⟩ : Change) ∈
      (applyPoolIntoRepo ⟨true, false⟩ ⟨fun _ => false⟩
        [⟨"d", "x", some [], ApplyOutcome.failTot⟩,
         ⟨"m", "x", some ["d"], ApplyOutcome.success⟩,
         ⟨"p", "x", some ["m"], ApplyOutcome.success⟩]).state.applied := by
  decide

/-- C2, amended: within the application of one chain, once the chain reaches a change
that does not apply successfully, no later change of that chain is passed to the apply
primitive in that pass and no later change is classified into any outcome set there -
the rest of the chain is simply abandoned. A dependent patch can still be applied or
classified later through another change's chain, as the counterexample shows. -/
theorem claim_C2_amended (cfg : PoolCfg) :
    ∀ (xs : List Change) (S : ApplyState) (d y : Change) (ys : List Change),
      d.applyOutcome ≠ ApplyOutcome.success → d ∉ S.applied → d ∉ xs →
      y ∈ ys → y ∉ xs → y ≠ d →
      ((y ∈ (applyStack cfg S (xs ++ d :: ys)).attempts ↔ y ∈ S.attempts) ∧
       (y ∈ (applyStack cfg S (xs ++ d :: ys)).applied ↔ y ∈ S.applied) ∧
       (y ∈ (applyStack cfg S (xs ++ d :: ys)).tot ↔ y ∈ S.tot) ∧
       (y ∈ (applyStack cfg S (xs ++ d :: ys)).inflight ↔ y ∈ S.inflight)) := by
  intro xs
  induction xs with
  | nil =>
    intro S d y ys hdf hdS _ hy _ hyd
    rw [List.nil_append]
    by_cases h2 : d ∈ S.tot
    · simp only [applyStack, hdS, h2, if_true, if_false]
      exact ⟨trivial, trivial, trivial, trivial⟩
    · cases hco : d.applyOutcome with
      | success => exact absurd hco hdf
      | failTot =>
        simp only [applyStack, hdS, h2, hco, if_false]
        refine ⟨?_, trivial, ?_, trivial⟩
        · constructor
          · intro h
            rcases List.mem_append.1 h with h | h
            · exact h
            · exact absurd (List.mem_singleton.1 h) hyd
          · intro h
            exact List.mem_append.2 (Or.inl h)
        · constructor
          · intro h
            rcases mem_addSet.1 h with h | h
            · exact absurd h hyd
            · exact h
          · intro h
            exact mem_addSet.2 (Or.inr h)
      | failInflight =>
        simp only [applyStack, hdS, h2, hco, if_false]
        refine ⟨?_, trivial, trivial, ?_⟩
        · constructor
          · intro h
            rcases List.mem_append.1 h with h | h
            · exact h
            · exact absurd (List.mem_singleton.1 h) hyd
          · intro h
            exact List.mem_append.2 (Or.inl h)
        · constructor
          · intro h
            rcases mem_addSet.1 h with h | h
            · exact absurd h hyd
            · exact h
          · intro h
            exact mem_addSet.2 (Or.inr h)
  | cons x xs2 ih =>
    intro S d y ys hdf hdS hdxs hy hyxs hyd
    have hdx : d ≠ x := fun h => hdxs (h ▸ List.mem_cons_self x xs2)
    have hdxs2 : d ∉ xs2 := fun h => hdxs (List.mem_cons_of_mem x h)
    have hyx : y ≠ x := fun h => hyxs (h ▸ List.mem_cons_self x xs2)
    have hyxs2 : y ∉ xs2 := fun h => hyxs (List.mem_cons_of_mem x h)
    rw [List.cons_append]
    by_cases h1 : x ∈ S.applied
    · simp only [applyStack, h1, if_true]
      exact ih S d y ys hdf hdS hdxs2 hy hyxs2 hyd
    · by_cases h2 : x ∈ S.tot
      · simp only [applyStack, h1, h2, if_true, if_false]
        exact ⟨trivial, trivial, trivial, trivial⟩
      · cases hco : x.applyOutcome with
        | failTot =>
          simp only [applyStack, h1, h2, hco, if_false]
          refine ⟨?_, trivial, ?_, trivial⟩
          · constructor
            · intro h
              rcases List.mem_append.1 h with h | h
              · exact h
              · exact absurd (List.mem_singleton.1 h) hyx
            · intro h
              exact List.mem_append.2 (Or.inl h)
          · constructor
            · intro h
              rcases mem_addSet.1 h with h | h
              · exact absurd h hyx
              · exact h
            · intro h
              exact mem_addSet.2 (Or.inr h)
        | failInflight =>
          simp only [applyStack, h1, h2, hco, if_false]
          refine ⟨?_, trivial, trivial, ?_⟩
          · constructor
            · intro h
              rcases List.mem_append.1 h with h | h
              · exact h
              · exact absurd (List.mem_singleton.1 h) hyx
            · intro h
              exact List.mem_append.2 (Or.inl h)
          · constructor
            · intro h
              rcases mem_addSet.1 h with h | h
              · exact absurd h hyx
              · exact h
            · intro h
              exact mem_addSet.2 (Or.inr h)
        | success =>
          simp only [applyStack, h1, h2, hco, if_false]
          have hd2 : d ∉ addSet x S.applied := by
            intro h
            rcases mem_addSet.1 h with h | h
            · exact hdx h
            · exact hdS h
          obtain ⟨j1, j2, j3, j4⟩ :=
            ih { S with attempts := S.attempts ++ [x],
                        applied := addSet x S.applied,
                        appliedList := S.appliedList ++ [x],
                        events := S.events ++
                          (if cfg.is_master then handleApplied cfg.dryrun x else []) }
              d y ys hdf hd2 hdxs2 hy hyxs2 hyd
          refine ⟨j1.trans ?_, j2.trans ?_, j3, j4⟩
          · constructor
            · intro h
              rcases List.mem_append.1 h with h | h
              · exact h
              · exact absurd (List.mem_singleton.1 h) hyx
            · intro h
              exact List.mem_append.2 (Or.inl h)
          · constructor
            · intro h
              rcases mem_addSet.1 h with h | h
              · exact absurd h hyx
              · exact h
            · intro h
              exact mem_addSet.2 (Or.inr h)

/-- C2, witness for the amended claim: a chain [d, y] whose head fails against the tip
leaves y unattempted. -/
theorem claim_C2_amended_witness :
    ((⟨"y", "x", some [], ApplyOutcome.success⟩ : Change) ∈
        (applyStack ⟨true, false⟩ initState
          ([] ++ (⟨"d", "x", some [], ApplyOutcome.failTot⟩ : Change) ::
            [⟨"y", "x", some [], ApplyOutcome.success⟩])).attempts ↔
      (⟨"y", "x", some [], ApplyOutcome.success⟩ : Change) ∈ initState.attempts) :=
  (claim_C2_amended ⟨true, false⟩ [] initState
      ⟨"d", "x", some [], ApplyOutcome.failTot⟩
      ⟨"y", "x", some [], ApplyOutcome.success⟩
      [⟨"y", "x", some [], ApplyOutcome.success⟩]
      (by decide) (by decide) (by decide) (by decide) (by decide) (by decide)).1

/-- C3, counterexample: a patch with the unsatisfiable dependency x9 is indeed never
applied, but it is not classified as a tip-equivalent failure either - it ends in none
of the three outcome sets of the returned partition. -/
theorem claim_C3_counterexample :
    (⟨"a", "x", some ["x9"], ApplyOutcome.success⟩ : Change) ∉
      (applyPoolIntoRepo ⟨true, false⟩ ⟨fun _ => false⟩
        [⟨"a", "x", some ["x9"], ApplyOutcome.success⟩]).state.attempts ∧
    (⟨"a", "x", some ["x9"], ApplyOutcome.success⟩ : Change) ∉
      (applyPoolIntoRepo ⟨true, false⟩ ⟨fun _ => false⟩
        [⟨"a", "x", some ["x9"], ApplyOutcome.success⟩]).state.tot ∧
    (⟨"a", "x", some ["x9"], ApplyOutcome.success⟩ : Change) ∉
      (applyPoolIntoRepo ⟨true, false⟩ ⟨fun _ => false⟩
        [⟨"a", "x", some ["x9"], ApplyOutcome.success⟩]).state.inflight ∧
    (⟨"a", "x", some ["x9"], ApplyOutcome.success⟩ : Change) ∉
      (applyPoolIntoRepo ⟨true, false⟩ ⟨fun _ => false⟩
        [⟨"a", "x", some ["x9"], ApplyOutcome.success⟩]).state.applied := by
  decide

/-- C3, amended: an input patch with a dependency alias that neither resolves in the
pool nor is reported committed, and which no other input patch resolves a dependency
to, is never passed to the apply primitive and ends in none of the three outcome sets:
it is silently dropped from the pool rather than classified as a tip failure. -/
theorem claim_C3_amended (cfg : PoolCfg) (env : ApplyEnv) (changes : List Change)
    (p : Change) (ds : List String) (d : String)
    (_hp : p ∈ changes) (hdeps : p.deps = some ds) (hd : d ∈ ds)
    (hno : lookupChange changes d = none) (hcm : env.isCommitted d = false)
    (hnodep : ∀ q ∈ changes, q ≠ p →
        ∀ a ∈ q.deps.getD [], lookupChange changes a ≠ some p) :
    p ∉ (applyPoolIntoRepo cfg env changes).state.attempts ∧
    p ∉ (applyPoolIntoRepo cfg env changes).state.applied ∧
    p ∉ (applyPoolIntoRepo cfg env changes).state.tot ∧
    p ∉ (applyPoolIntoRepo cfg env changes).state.inflight ∧
    p ∉ (applyPoolIntoRepo cfg env changes).newChanges ∧
    p ∉ (applyPoolIntoRepo cfg env changes).failedEarlier := by
  have hI := foldState_inv cfg env changes
  have hP : p ∉ (foldState cfg env changes).attempts ∧
      p ∉ (foldState cfg env changes).applied ∧
      p ∉ (foldState cfg env changes).tot ∧
      p ∉ (foldState cfg env changes).inflight := by
    unfold foldState
    refine foldl_inv
      (fun S => p ∉ S.attempts ∧ p ∉ S.applied ∧ p ∉ S.tot ∧ p ∉ S.inflight)
      _ changes initState (by simp [initState]) ?_
    intro S c hc hPS
    obtain ⟨h1, h2, h3, h4⟩ := hPS
    by_cases hcp : c = p
    · subst hcp
      exact processChange_selfFailDep hdeps hd hno hcm h1 h2 h3 h4
    · exact processChange_pfree hcp (hnodep c hc hcp) h1 h2 h3 h4
  obtain ⟨h1, h2, h3, h4⟩ := hP
  rw [applyPool_attempts, applyPool_applied, applyPool_tot, applyPool_inflight,
    applyPool_newChanges, applyPool_failedEarlier]
  refine ⟨h1, h2, h3, h4, ?_, h4⟩
  intro hmem
  exact h2 ((hI.appliedIffList p).2 hmem)

/-- C3, witness for the amended claim at a one-change pool. -/
theorem claim_C3_amended_witness :
    (⟨"a", "x", some ["x9"], ApplyOutcome.success⟩ : Change) ∉
      (applyPoolIntoRepo ⟨true, false⟩ ⟨fun _ => false⟩
        [⟨"a", "x", some ["x9"], ApplyOutcome.success⟩]).newChanges :=
  (claim_C3_amended ⟨true, false⟩ ⟨fun _ => false⟩
      [⟨"a", "x", some ["x9"], ApplyOutcome.success⟩]
      ⟨"a", "x", some ["x9"], ApplyOutcome.success⟩ ["x9"] "x9"
      (by decide) rfl (by decide) (by decide) rfl (by decide)).2.2.2.2.1

/-- C4: in the submit pass of _SubmitChanges with the tree open and outside dryrun,
every change gets a submit command regardless of earlier failures; a change counts as
submitted exactly when the submit command did not raise and the after-the-fact
IsChangeCommitted verification succeeded; every failing change receives the
could-not-submit treatment of a posted notification plus ready-marker removal; and
FailedToSubmitAllChangesException is raised precisely when at least one change failed,
naming exactly the failed changes in order. -/
theorem claim_C4 (env : SubmitEnv) (changes : List Change) (htree : env.treeOpen = true) :
    (∀ c ∈ changes, Event.submitCmd c ∈ (submitChanges false true env changes).1) ∧
    (∀ c : Change, changeSubmitted false env c =
        (!env.submitRaises c && env.isCommitted c.id false)) ∧
    (∀ c ∈ changes, changeSubmitted false env c = false →
        Event.comment c ∈ (submitChanges false true env changes).1 ∧
        Event.removeReady c ∈ (submitChanges false true env changes).1) ∧
    ((submitChanges false true env changes).2 = Except.ok () ↔
        ∀ c ∈ changes, changeSubmitted false env c = true) ∧
    (∀ l : List Change,
        (submitChanges false true env changes).2 =
            Except.error (SubmitErr.failedToSubmitAll l) ↔
          (l = changes.filter (fun c => !changeSubmitted false env c) ∧ l ≠ [])) := by
  have hsc : submitChanges false true env changes =
      (changes.foldl (fun acc c => acc ++ submitOneEvents false env c) [],
       if (changes.filter (fun c => !changeSubmitted false env c)).isEmpty then
         Except.ok ()
       else
         Except.error (SubmitErr.failedToSubmitAll
           (changes.filter (fun c => !changeSubmitted false env c)))) := by
    unfold submitChanges
    rw [htree]
    simp
  rw [hsc]
  dsimp only
  refine ⟨?_, ?_, ?_, ?_, ?_⟩
  · intro c hc
    refine (mem_foldl_append _ changes [] _).2 (Or.inr ⟨c, hc, ?_⟩)
    simp [submitOneEvents]
  · intro c
    cases hr : env.submitRaises c <;> simp [changeSubmitted, hr]
  · intro c hc hf
    constructor <;>
      refine (mem_foldl_append _ changes [] _).2 (Or.inr ⟨c, hc, ?_⟩) <;>
      simp [submitOneEvents, hf, handleCouldNotSubmit, sendNotification,
        removeCommitReady]
  · by_cases hemp : (changes.filter (fun c => !changeSubmitted false env c)).isEmpty
    · rw [if_pos hemp]
      have hnil : List.filter (fun c => !changeSubmitted false env c) changes = [] :=
        List.isEmpty_iff.1 hemp
      constructor
      · intro _ c hc
        cases hs : changeSubmitted false env c
        · exfalso
          have hcf : c ∈ List.filter (fun c => !changeSubmitted false env c) changes :=
            List.mem_filter.2 ⟨hc, by rw [hs]; rfl⟩
          rw [hnil] at hcf
          exact List.not_mem_nil c hcf
        · rfl
      · intro _
        rfl
    · rw [if_neg hemp]
      constructor
      · intro h
        exact Except.noConfusion h
      · intro hall
        exfalso
        apply hemp
        rw [List.isEmpty_iff, List.filter_eq_nil_iff]
        intro a ha
        simp [hall a ha]
  · intro l
    by_cases hemp : (changes.filter (fun c => !changeSubmitted false env c)).isEmpty
    · rw [if_pos hemp]
      constructor
      · intro h
        exact Except.noConfusion h
      · rintro ⟨rfl, hne⟩
        exact absurd (List.isEmpty_iff.1 hemp) hne
    · rw [if_neg hemp]
      constructor
      · intro h
        rw [Except.error.injEq, SubmitErr.failedToSubmitAll.injEq] at h
        refine ⟨h.symm, ?_⟩
        intro hnil
        rw [hnil] at h
        exact hemp (by rw [h]; rfl)
      · rintro ⟨rfl, _⟩
        rfl

/-- C4, witness: of two changes where only the second fails verification, the raised
condition names exactly the second. -/
theorem claim_C4_witness :
    (submitChanges false true ⟨true, fun _ => false, fun i _ => i == "ok"⟩
        [⟨"ok", "x", some [], ApplyOutcome.success⟩,
         ⟨"bad", "x", some [], ApplyOutcome.success⟩]).2 =
      Except.error (SubmitErr.failedToSubmitAll
        [⟨"bad", "x", some [], ApplyOutcome.success⟩]) :=
  ((claim_C4 ⟨true, fun _ => false, fun i _ => i == "ok"⟩
      [⟨"ok", "x", some [], ApplyOutcome.success⟩,
       ⟨"bad", "x", some [], ApplyOutcome.success⟩] rfl).2.2.2.2
    [⟨"bad", "x", some [], ApplyOutcome.success⟩]).mpr (by decide)

/-- C5, counterexample: a patch classified failed-inflight can nevertheless receive a
rejection comment and lose its ready marker, because it can also sit in the
failed-against-tip set: here c fails inflight inside the chain of p and then its own
dependency computation raises MissingChangeIDException. -/
theorem claim_C5_counterexample :
    (⟨"c", "x", none, ApplyOutcome.failInflight⟩ : Change) ∈
      (applyPoolIntoRepo ⟨true, false⟩ ⟨fun _ => false⟩
        [⟨"p", "x", some ["c"], ApplyOutcome.success⟩,
         ⟨"c", "x", none, ApplyOutcome.failInflight⟩]).state.inflight ∧
    (⟨"c", "x", none, ApplyOutcome.failInflight⟩ : Change) ∈
      (applyPoolIntoRepo ⟨true, false⟩ ⟨fun _ => false⟩
        [⟨"p", "x", some ["c"], ApplyOutcome.success⟩,
         ⟨"c", "x", none, ApplyOutcome.failInflight⟩]).failedEarlier ∧
    Event.comment ⟨"c", "x", none, ApplyOutcome.failInflight⟩ ∈
      (applyPoolIntoRepo ⟨true, false⟩ ⟨fun _ => false⟩
        [⟨"p", "x", some ["c"], ApplyOutcome.success⟩,
         ⟨"c", "x", none, ApplyOutcome.failInflight⟩]).state.events ∧
    Event.removeReady ⟨"c", "x", none, ApplyOutcome.failInflight⟩ ∈
      (applyPoolIntoRepo ⟨true, false⟩ ⟨fun _ => false⟩
        [⟨"p", "x", some ["c"], ApplyOutcome.success⟩,
         ⟨"c", "x", none, ApplyOutcome.failInflight⟩]).state.events := by
  decide

/-- C5, amended: a patch classified failed-inflight is always present in
changes_that_failed_to_apply_earlier when the call returns, and - provided it is not
also in the failed-against-tip set - no external review-system action is performed for
it: no comment, no marker removal, no submit command. -/
theorem claim_C5_amended (cfg : PoolCfg) (env : ApplyEnv) (changes : List Change)
    (c : Change) (_hids : (changes.map Change.id).Nodup)
    (hin : c ∈ (applyPoolIntoRepo cfg env changes).state.inflight)
    (hnt : c ∉ (applyPoolIntoRepo cfg env changes).state.tot) :
    c ∈ (applyPoolIntoRepo cfg env changes).failedEarlier ∧
    Event.comment c ∉ (applyPoolIntoRepo cfg env changes).state.events ∧
    Event.removeReady c ∉ (applyPoolIntoRepo cfg env changes).state.events ∧
    Event.submitCmd c ∉ (applyPoolIntoRepo cfg env changes).state.events := by
  have hI := foldState_inv cfg env changes
  rw [applyPool_inflight] at hin
  rw [applyPool_tot] at hnt
  rw [applyPool_failedEarlier, applyPool_events]
  refine ⟨hin, ?_, ?_, ?_⟩
  · intro hmem
    rcases List.mem_append.1 hmem with h | h
    · have h2 := hI.commentApplied c h
      have h3 := hI.appliedOutcome c h2
      have h4 := hI.inflightOutcome c hin
      rw [h3] at h4
      exact ApplyOutcome.noConfusion h4
    · rcases mem_hafTail.1 h with ⟨c2, hc2, hm2⟩
      rcases mem_masterCouldNotApply hm2 with he | he
      · rw [Event.comment.injEq] at he
        refine hnt ?_
        rw [he]
        exact hc2
      · exact Event.noConfusion he
  · intro hmem
    rcases List.mem_append.1 hmem with h | h
    · exact hI.noRemove c h
    · rcases mem_hafTail.1 h with ⟨c2, hc2, hm2⟩
      rcases mem_masterCouldNotApply hm2 with he | he
      · exact Event.noConfusion he
      · rw [Event.removeReady.injEq] at he
        refine hnt ?_
        rw [he]
        exact hc2
  · intro hmem
    rcases List.mem_append.1 hmem with h | h
    · exact hI.noSubmit c h
    · rcases mem_hafTail.1 h with ⟨c2, _, hm2⟩
      rcases mem_masterCouldNotApply hm2 with he | he <;> exact Event.noConfusion he

/-- C5, witness for the amended claim: a lone inflight failure is requeued. -/
theorem claim_C5_amended_witness :
    (⟨"f", "x", some [], ApplyOutcome.failInflight⟩ : Change) ∈
      (applyPoolIntoRepo ⟨true, false⟩ ⟨fun _ => false⟩
        [⟨"f", "x", some [], ApplyOutcome.failInflight⟩]).failedEarlier :=
  (claim_C5_amended ⟨true, false⟩ ⟨fun _ => false⟩
      [⟨"f", "x", some [], ApplyOutcome.failInflight⟩]
      ⟨"f", "x", some [], ApplyOutcome.failInflight⟩
      (by decide) (by decide) (by decide)).1

/-- C6, counterexample: on a non-master pool a patch classified failed-against-tip
receives no rejection comment and keeps its ready marker - HandleApplicationFailure
only acts for the master. -/
theorem claim_C6_counterexample :
    (⟨"t", "x", some [], ApplyOutcome.failTot⟩ : Change) ∈
      (applyPoolIntoRepo ⟨false, false⟩ ⟨fun _ => false⟩
        [⟨"t", "x", some [], ApplyOutcome.failTot⟩]).state.tot ∧
    (applyPoolIntoRepo ⟨false, false⟩ ⟨fun _ => false⟩
        [⟨"t", "x", some [], ApplyOutcome.failTot⟩]).state.events = [] := by
  decide

/-- C6, amended: on a master pool outside dryrun, every patch classified
failed-against-tip gets a rejection comment posted and its ready-for-commit marker
removed. -/
theorem claim_C6_amended (cfg : PoolCfg) (env : ApplyEnv) (changes : List Change)
    (c : Change) (hm : cfg.is_master = true) (hd : cfg.dryrun = false)
    (htot : c ∈ (applyPoolIntoRepo cfg env changes).state.tot) :
    Event.comment c ∈ (applyPoolIntoRepo cfg env changes).state.events ∧
    Event.removeReady c ∈ (applyPoolIntoRepo cfg env changes).state.events := by
  rw [applyPool_tot] at htot
  rw [applyPool_events]
  constructor <;> refine List.mem_append.2 (Or.inr (mem_hafTail.2 ⟨c, htot, ?_⟩)) <;>
    simp [hm, hd, handleCouldNotApply_nodry]

/-- C6, witness for the amended claim at a one-change pool. -/
theorem claim_C6_amended_witness :
    Event.comment ⟨"t", "x", some [], ApplyOutcome.failTot⟩ ∈
      (applyPoolIntoRepo ⟨true, false⟩ ⟨fun _ => false⟩
        [⟨"t", "x", some [], ApplyOutcome.failTot⟩]).state.events :=
  (claim_C6_amended ⟨true, false⟩ ⟨fun _ => false⟩
      [⟨"t", "x", some [], ApplyOutcome.failTot⟩]
      ⟨"t", "x", some [], ApplyOutcome.failTot⟩ rfl rfl (by decide)).1

/-- C7: ApplyPoolIntoRepo returns true exactly when at least one patch of the input
pool was applied successfully during the call. -/
theorem claim_C7 (cfg : PoolCfg) (env : ApplyEnv) (changes : List Change) :
    (applyPoolIntoRepo cfg env changes).returnValue = true ↔
      ∃ c ∈ changes, c ∈ (applyPoolIntoRepo cfg env changes).state.applied := by
  have hI := foldState_inv cfg env changes
  rw [applyPool_return, applyPool_applied]
  constructor
  · intro h
    rcases hl : (foldState cfg env changes).appliedList with _ | ⟨x, t⟩
    · rw [hl] at h
      simp at h
    · have hx : x ∈ (foldState cfg env changes).appliedList := by
        rw [hl]
        exact List.mem_cons_self x t
      have hx2 := (hI.appliedIffList x).2 hx
      exact ⟨x, hI.appliedSub x hx2, hx2⟩
  · rintro ⟨c, _, hca⟩
    have hmem := (hI.appliedIffList c).1 hca
    rcases hl : (foldState cfg env changes).appliedList with _ | ⟨x, t⟩
    · rw [hl] at hmem
      exact absurd hmem (List.not_mem_nil c)
    · rfl

/-- C8, counterexample: a run whose only successful poll (HTTP 200) reports closed can
still make _IsTreeOpen return True, because a fetch whose five attempts all fail
yields a synthetic open status; so the claim hypothesis about successful polls alone
does not force a False return. -/
theorem claim_C8_counterexample :
    (fun i => if i = 0 then FetchOutcome.ok 200 "closed" else FetchOutcome.err) 0 =
        FetchOutcome.ok 200 "closed" ∧
    canSubmitState "closed" = false ∧
    isTreeOpen (fun i => if i = 0 then FetchOutcome.ok 200 "closed" else FetchOutcome.err)
        600 = true := by
  decide

/-- C8, amended: when every urlopen attempt succeeds with HTTP 200, _IsTreeOpen sleeps
min(max(maxTimeout/5, 1), 30) seconds between polls; if every poll reports a state
outside open and throttled it returns False once maxTimeout has elapsed; and it
returns True at the first poll reporting open or throttled, having performed exactly
that many polls, provided that poll still falls inside the timeout budget. -/
theorem claim_C8_amended (env : Nat → FetchOutcome) (states : Nat → String) (mt : Nat)
    (hall : ∀ k, env k = FetchOutcome.ok 200 (states k)) :
    sleepTimeout mt = min (max (mt / 5) 1) 30 ∧
    ((∀ k, canSubmitState (states k) = false) → isTreeOpen env mt = false) ∧
    (∀ j, (∀ k < j, canSubmitState (states k) = false) →
      canSubmitState (states j) = true →
      (j = 0 ∨ (j - 1) * sleepTimeout mt < mt) →
      isTreeOpenEx env mt = (true, j + 1)) := by
  refine ⟨rfl, ?_, ?_⟩
  · intro hcl
    unfold isTreeOpen isTreeOpenEx
    rw [getTreeStatus_ok hall 0]
    simp only [hcl 0, Bool.false_eq_true, if_false, List.sum_nil]
    exact treeOpenLoop_closed mt (sleepTimeout mt) hall hcl _ _ _ _
  · intro j hcl hop hcond
    cases j with
    | zero =>
      unfold isTreeOpenEx
      rw [getTreeStatus_ok hall 0]
      simp only [hop]
      rfl
    | succ j2 =>
      have hcl0 := hcl 0 (Nat.succ_pos j2)
      unfold isTreeOpenEx
      rw [getTreeStatus_ok hall 0]
      simp only [hcl0, Bool.false_eq_true, if_false, List.sum_nil]
      have hc2 : j2 * sleepTimeout mt < mt := by
        rcases hcond with h | h
        · exact absurd h (Nat.succ_ne_zero j2)
        · simpa using h
      have hfuel : j2 < mt + 1 := by
        have h1 : j2 * 1 ≤ j2 * sleepTimeout mt :=
          Nat.mul_le_mul_left j2 (sleepTimeout_pos mt)
        rw [Nat.mul_one] at h1
        omega
      have hres := treeOpenLoop_open mt (sleepTimeout mt) hall j2 (mt + 1) 1 0 1
        (fun k hk => by
          rw [show (1 : Nat) + k = k + 1 by omega]
          exact hcl (k + 1) (by omega))
        (by rwa [show (1 : Nat) + j2 = j2 + 1 by omega])
        (by simpa using hc2)
        hfuel
      rw [hres]
      simp only [Prod.mk.injEq]
      exact ⟨trivial, by omega⟩

/-- C8, witness for the amended claim: ten seconds of consistently closed reports give
a False return. -/
theorem claim_C8_amended_witness :
    isTreeOpen (fun _ => FetchOutcome.ok 200 "closed") 10 = false :=
  ((claim_C8_amended (fun _ => FetchOutcome.ok 200 "closed") (fun _ => "closed") 10
      (fun _ => rfl)).2.1) (fun _ => by decide)

/-- C9: when every urlopen attempt fails (IOError or a non-200 response), one status
fetch performs exactly five attempts with exponential backoff sleeps of 1, 2, 4, 8 and
16 seconds and then reports a synthetic open state, so _IsTreeOpen returns True
instead of blocking or raising. -/
theorem claim_C9 (env : Nat → FetchOutcome)
    (h : ∀ k, env k = FetchOutcome.err ∨
      ∃ code s, code ≠ 200 ∧ env k = FetchOutcome.ok code s)
    (mt j : Nat) :
    getTreeStatus env j = ⟨"open", j + 5, [1, 2, 4, 8, 16]⟩ ∧
    isTreeOpen env mt = true := by
  have step : ∀ i cur k, getTreeStatusAux env i cur (k + 1) =
      ⟨(getTreeStatusAux env (i + 1) (cur * 2) k).state,
       (getTreeStatusAux env (i + 1) (cur * 2) k).next,
       cur :: (getTreeStatusAux env (i + 1) (cur * 2) k).sleeps⟩ := by
    intro i cur k
    rcases h i with herr | ⟨code, s, hne, hok⟩
    · simp [getTreeStatusAux, herr]
    · simp [getTreeStatusAux, hok, hne]
  have hfetch : ∀ i, getTreeStatus env i = ⟨"open", i + 5, [1, 2, 4, 8, 16]⟩ := by
    intro i
    have e1 := step i 1 4
    have e2 := step (i + 1) 2 3
    have e3 := step (i + 1 + 1) 4 2
    have e4 := step (i + 1 + 1 + 1) 8 1
    have e5 := step (i + 1 + 1 + 1 + 1) 16 0
    norm_num at e1 e2 e3 e4 e5
    unfold getTreeStatus
    rw [e1, e2, e3, e4, e5]
    simp only [getTreeStatusAux, FetchRun.mk.injEq]
  refine ⟨hfetch j, ?_⟩
  unfold isTreeOpen isTreeOpenEx
  rw [hfetch 0]
  simp [canSubmitState]

/-- C9, witness: with every attempt raising IOError the tree reads open. -/
theorem claim_C9_witness :
    isTreeOpen (fun _ => FetchOutcome.err) 7 = true :=
  (claim_C9 (fun _ => FetchOutcome.err) (fun _ => Or.inl rfl) 7 0).2

/-- C10: GetGerritPatchInfo returns one GerritPatch per identifier in input order,
marking a patch internal exactly when its identifier begins with a star, stripping the
star before the query and directing internal identifiers to the internal server; and
it raises PatchException at the first query record lacking an id field. -/
theorem claim_C10 (query : Bool → String → QueryResult) (ps : List String) :
    ((∀ p ∈ ps, (query (isInternalId p) (strippedId p)).hasId = true) →
      getGerritPatchInfo query ps =
        Except.ok (ps.map (fun p =>
          mkGerritPatch (query (isInternalId p) (strippedId p)) (isInternalId p)))) ∧
    (∀ xs y ys, ps = xs ++ y :: ys →
      (∀ p ∈ xs, (query (isInternalId p) (strippedId p)).hasId = true) →
      (query (isInternalId y) (strippedId y)).hasId = false →
      getGerritPatchInfo query ps =
        Except.error ("Change-ID " ++ strippedId y ++ " not found on server.")) := by
  constructor
  · exact getGerritPatchInfo_ok ps
  · intro xs y ys hps hok hbad
    rw [hps]
    exact getGerritPatchInfo_err xs y ys hok hbad

/-- C10, witness: one internal and one external identifier resolve in order with the
star stripped for the query. -/
theorem claim_C10_witness :
    getGerritPatchInfo
        (fun _ s => ⟨true, "proj", "br", String.append "I" s, "r", "v"⟩)
        ["*42", "51"] =
      Except.ok [⟨"proj", "br", true, "I42", "r", "v"⟩,
        ⟨"proj", "br", false, "I51", "r", "v"⟩] := by
  have h := (claim_C10
      (fun _ s => ⟨true, "proj", "br", String.append "I" s, "r", "v"⟩)
      ["*42", "51"]).1 (by decide)
  rw [h]
  decide

end Chromite
